import Mathlib

/-!
Verification development for the rule-based crop-rotation recommender
(`CropRotationRecommender` in `ml/pipeline.py`).

The recommender holds four aggregate structures built once from the reference
dataset (`suit_by_soil`, `bias_by_crop`, `bands`, `legumes`) and answers
queries with `recommend_next_crop`.  The embedding below translates that
class statement by statement: numeric readings and scores are modelled as
rationals (the source treats score arithmetic as exact decimal sums), the
Python dictionaries become association lists looked up with `List.lookup`,
Python's stable `sorted(..., reverse=True)` becomes `List.insertionSort`
with the score-descending relation (a stable sort, extensionally equal to
any stable descending sort), and the fallible method becomes a function
into `Except`.
-/

namespace CropRotation

attribute [local semireducible] Rat.add Rat.mul Rat.inv Rat.sub

/-- Environmental tolerance band of one crop: the per-crop min/max of
temperature, moisture and humidity built by `load_data`. -/
structure Bands where
  temp_min : ℚ
  temp_max : ℚ
  moist_min : ℚ
  moist_max : ℚ
  hum_min : ℚ
  hum_max : ℚ
deriving DecidableEq

/-- State of a `CropRotationRecommender` instance: `dataLoaded` models
`self.soil_data is not None`, the other four fields are the aggregate
structures (`self.suit_by_soil`, `self.bias_by_crop`, `self.bands`,
`self.legumes`), with the Python dicts as association lists. -/
structure AggState where
  dataLoaded : Bool
  suit_by_soil : List (String × List String)
  bias_by_crop : List (String × String)
  bands : List (String × Bands)
  legumes : List String
deriving DecidableEq

/-- Value of `self.legumes` set in `__init__` and never reassigned. -/
def initLegumes : List String := ["Pulses", "Oil Seeds"]

/-- One query to `recommend_next_crop`: the positional arguments of the
method.  `top_k` is an integer as in Python (default 5 at the call sites). -/
structure Query where
  current_crop : String
  soil_type : String
  temp : ℚ
  humidity : ℚ
  moisture : ℚ
  n : ℚ
  p : ℚ
  k : ℚ
  top_k : ℤ
deriving DecidableEq

/-- One entry of the returned recommendation list: the dict literal built in
`recommend_next_crop` with keys `crop`, `score`, `suitability_score`,
`reason`, `benefits`. -/
structure Recommendation where
  crop : String
  score : ℚ
  suitability_score : ℤ
  reason : String
  benefits : String
deriving DecidableEq

/-- Python `str.strip()` (whitespace removal at both ends). -/
def pyStrip (s : String) : String :=
  String.mk (((s.data.dropWhile Char.isWhitespace).reverse.dropWhile
    Char.isWhitespace).reverse)

/-- Worker for `pyTitle`: the boolean records whether the previous character
was a letter (Python upcases a letter that follows a non-letter and
downcases a letter that follows a letter). -/
def titleMap : Bool → List Char → List Char
  | _, [] => []
  | prevAlpha, c :: cs =>
    if c.isAlpha then (if prevAlpha then c.toLower else c.toUpper) :: titleMap true cs
    else c :: titleMap false cs

/-- Python `str.title()` restricted to the ASCII letters that occur in the
dataset's soil and crop names. -/
def pyTitle (s : String) : String := String.mk (titleMap false s.data)

/-- The `str(x).strip().title()` normalization applied by both `load_data`
and `recommend_next_crop`. -/
def normalizeName (s : String) : String := pyTitle (pyStrip s)

/-- Python truthiness of an optional string (`None` and `""` are falsy):
the scorer guards the rotation bonus with `cur_bias and cand_bias and ...`. -/
def truthy : Option String → Bool
  | none => false
  | some s => decide (s ≠ "")

/-- Python 3 `round` to an integer: round half to even. -/
def pyRound (q : ℚ) : ℤ :=
  let f := ⌊q⌋
  let frac := q - (f : ℚ)
  if frac < 1/2 then f
  else if 1/2 < frac then f + 1
  else if f % 2 = 0 then f else f + 1

/-- Python `max` over a nonempty list of scores (`0` is a dummy value for
`[]`, which the source never reaches: it returns early on empty lists). -/
def listMax : List ℚ → ℚ
  | [] => 0
  | x :: xs => xs.foldl max x

/-- Python `min` over a nonempty list of scores (dummy `0` on `[]`). -/
def listMin : List ℚ → ℚ
  | [] => 0
  | x :: xs => xs.foldl min x

/-- Python slice `l[:k]` for an integer `k` (a negative `k` counts from the
end, clamped at zero elements). -/
def pyTakeTo (l : List (String × ℚ)) (k : ℤ) : List (String × ℚ) :=
  l.take (if 0 ≤ k then k.toNat else l.length - (-k).toNat)

/-- Sort key used on the `(crop, score)` pairs: `a` may stay before `b`
iff `b`'s score is at most `a`'s (descending order on scores). -/
def scoreGE (a b : String × ℚ) : Prop := b.2 ≤ a.2

instance : DecidableRel scoreGE := fun a b => by
  unfold scoreGE; exact inferInstance

instance : IsTotal (String × ℚ) scoreGE :=
  ⟨fun a b => le_total b.2 a.2⟩

instance : IsTrans (String × ℚ) scoreGE :=
  ⟨fun _ _ _ h1 h2 => le_trans h2 h1⟩

/-- Embedding of Python's stable `sorted(scored, key=score, reverse=True)`:
insertion sort placing an element before the first existing element of
less-or-equal score, which is the unique stable descending sort. -/
def sortByScoreDesc (l : List (String × ℚ)) : List (String × ℚ) :=
  List.insertionSort scoreGE l

/-- Per-row nutrient-bias label: the lambda applied row-wise by `load_data`
to the `Nitrogen`, `Phosphorous`, `Potassium` columns. -/
def nutrientBias (nitrogen phosphorous potassium : ℚ) : String :=
  if nitrogen ≥ phosphorous ∧ nitrogen ≥ potassium then "N_high"
  else if phosphorous ≥ nitrogen ∧ phosphorous ≥ potassium then "P_high"
  else "K_high"

/-- The method `_get_recommendation_reason`. -/
def getRecommendationReason (legumes : List String)
    (recommended_crop current_crop : String)
    (current_bias recommended_bias : Option String) : String :=
  let reasons : List String :=
    (if recommended_crop ≠ current_crop then ["Crop rotation benefit"] else [])
    ++ (if truthy current_bias ∧ truthy recommended_bias ∧
          current_bias ≠ recommended_bias then ["Different nutrient requirements"] else [])
    ++ (if recommended_crop ∈ legumes then ["Nitrogen fixing properties"] else [])
  if reasons.isEmpty then "Suitable for soil type"
  else String.intercalate "; " reasons

/-- Loop body of `recommend_next_crop` computing `total_score` for one
candidate: family penalty, rotation bonus (with the nitrogen-fixing
addition folded into `rot_bonus` exactly as the source does), and the
environmental suitability from the candidate's band. -/
def scoreCand (st : AggState) (current_crop : String) (cur_bias : Option String)
    (q : Query) (cand : String) : ℚ :=
  let fam_penalty : ℚ := if cand ≠ current_crop then 0 else -1
  let cand_bias := st.bias_by_crop.lookup cand
  let rot_bonus : ℚ :=
    if truthy cur_bias ∧ truthy cand_bias ∧ cand_bias ≠ cur_bias then 1/2 else 0
  let rot_bonus := if q.n < 15 ∧ cand ∈ st.legumes then rot_bonus + 3/10 else rot_bonus
  let env_score : ℚ :=
    match st.bands.lookup cand with
    | none => 0
    | some b =>
      (if b.temp_min ≤ q.temp ∧ q.temp ≤ b.temp_max then 3/10 else 0)
      + (if b.moist_min ≤ q.moisture ∧ q.moisture ≤ b.moist_max then 3/10 else 0)
      + (if b.hum_min ≤ q.humidity ∧ q.humidity ≤ b.hum_max then 1/5 else 0)
  fam_penalty + rot_bonus + env_score

/-- Candidate crops for the query's soil type:
`self.suit_by_soil.get(soil_type, [])`. -/
def candidatesOf (st : AggState) (q : Query) : List String :=
  (st.suit_by_soil.lookup (normalizeName q.soil_type)).getD []

/-- Nutrient bias of the normalized current crop:
`self.bias_by_crop.get(current_crop)`. -/
def curBiasOf (st : AggState) (q : Query) : Option String :=
  st.bias_by_crop.lookup (normalizeName q.current_crop)

/-- The `scored` list of `(cand, total_score)` pairs. -/
def scoredOf (st : AggState) (q : Query) : List (String × ℚ) :=
  (candidatesOf st q).map fun cand =>
    (cand, scoreCand st (normalizeName q.current_crop) (curBiasOf st q) q cand)

/-- The `recommendations` list:
`sorted(scored, key=lambda x: x[1], reverse=True)[:top_k]`. -/
def selectedOf (st : AggState) (q : Query) : List (String × ℚ) :=
  pyTakeTo (sortByScoreDesc (scoredOf st q)) q.top_k

/-- `max_score` over the selected recommendations. -/
def selMax (st : AggState) (q : Query) : ℚ :=
  listMax ((selectedOf st q).map Prod.snd)

/-- `min_score` over the selected recommendations. -/
def selMin (st : AggState) (q : Query) : ℚ :=
  listMin ((selectedOf st q).map Prod.snd)

/-- Result dict built in the `score_range < 0.01` branch for the candidate
at rank `p.1`: the rank ladder `100 - 10 * idx`, floored at 50. -/
def ladderRec (st : AggState) (q : Query) (p : ℕ × (String × ℚ)) : Recommendation :=
  { crop := p.2.1, score := p.2.2,
    suitability_score := max (100 - (p.1 : ℤ) * 10) 50,
    reason := getRecommendationReason st.legumes p.2.1 (normalizeName q.current_crop)
      (curBiasOf st q) (st.bias_by_crop.lookup p.2.1),
    benefits := getRecommendationReason st.legumes p.2.1 (normalizeName q.current_crop)
      (curBiasOf st q) (st.bias_by_crop.lookup p.2.1) }

/-- Result dict built in the normal branch for one selected candidate:
`round(((score - min_score) / score_range) * 100)`, floored at 50. -/
def normRec (st : AggState) (q : Query) (p : String × ℚ) : Recommendation :=
  { crop := p.1, score := p.2,
    suitability_score :=
      max (pyRound ((p.2 - selMin st q) / (selMax st q - selMin st q) * 100)) 50,
    reason := getRecommendationReason st.legumes p.1 (normalizeName q.current_crop)
      (curBiasOf st q) (st.bias_by_crop.lookup p.1),
    benefits := getRecommendationReason st.legumes p.1 (normalizeName q.current_crop)
      (curBiasOf st q) (st.bias_by_crop.lookup p.1) }

/-- Body of `recommend_next_crop` after the initialization check: scoring,
ranking, truncation, suitability normalization and explanation. -/
def recommendCore (st : AggState) (q : Query) : List Recommendation :=
  let recommendations := selectedOf st q
  if recommendations.isEmpty then []
  else if selMax st q - selMin st q < 1/100 then
    recommendations.enum.map (ladderRec st q)
  else
    recommendations.map (normRec st q)

/-- The method `recommend_next_crop` as a state transformer: it raises
(`Except.error`) when `self.soil_data is None` and otherwise returns the
recommendation list; the instance state is threaded through explicitly and,
since the method body only reads the aggregates, passed back unchanged. -/
def recommend_next_cropS (st : AggState) (q : Query) :
    Except String (List Recommendation) × AggState :=
  if st.dataLoaded then (Except.ok (recommendCore st q), st)
  else (Except.error "Data not loaded. Call load_data() first.", st)

/-- Result of one call of `recommend_next_crop`. -/
def recommend_next_crop (st : AggState) (q : Query) :
    Except String (List Recommendation) :=
  (recommend_next_cropS st q).1

/-- Well-formedness of the aggregates as guaranteed by `load_data` and
`__init__`: every nutrient-bias value is one of the three labels the
builder produces, and the legume set is the one fixed in `__init__`. -/
def WFState (st : AggState) : Prop :=
  (∀ pr ∈ st.bias_by_crop, pr.2 = "N_high" ∨ pr.2 = "P_high" ∨ pr.2 = "K_high")
  ∧ st.legumes = initLegumes

instance (st : AggState) : Decidable (WFState st) := by
  unfold WFState; exact inferInstance

/-! Concrete aggregate state and query used to exercise the theorems, with
the shape of the worked example in the design notes: soil `Clayey` carrying
candidates `Paddy`, `Pulses`, `Rice`. -/

/-- Environmental band shared by the example crops. -/
def exBands : Bands :=
  { temp_min := 20, temp_max := 35, moist_min := 30, moist_max := 60,
    hum_min := 40, hum_max := 80 }

/-- Example aggregate state after a successful `load_data`. -/
def exSt : AggState :=
  { dataLoaded := true,
    suit_by_soil := [("Clayey", ["Paddy", "Pulses", "Rice"])],
    bias_by_crop := [("Paddy", "N_high"), ("Pulses", "P_high"), ("Rice", "N_high")],
    bands := [("Paddy", exBands), ("Pulses", exBands), ("Rice", exBands)],
    legumes := ["Pulses", "Oil Seeds"] }

/-- Example query: rotating away from `Paddy` on `Clayey` soil with low
nitrogen. -/
def exQ : Query :=
  { current_crop := "Paddy", soil_type := "Clayey", temp := 30, humidity := 60,
    moisture := 45, n := 12, p := 10, k := 20, top_k := 5 }

/-- Same query directed at a soil type the index does not know. -/
def exQUnknown : Query :=
  { current_crop := "Paddy", soil_type := "Sandy", temp := 30, humidity := 60,
    moisture := 45, n := 12, p := 10, k := 20, top_k := 5 }

/-- Top-ranked record returned by the example query. -/
def exRec : Recommendation :=
  { crop := "Pulses", score := 8/5, suitability_score := 100,
    reason := "Crop rotation benefit; Different nutrient requirements; Nitrogen fixing properties",
    benefits := "Crop rotation benefit; Different nutrient requirements; Nitrogen fixing properties" }

/-! Helper lemmas about lookups and the record lists built by
`recommendCore`. -/

theorem lookup_val {β : Type} {l : List (String × β)} {k : String} {v : β}
    (h : l.lookup k = some v) : ∃ pr ∈ l, pr.2 = v := by
  induction l with
  | nil => simp [List.lookup] at h
  | cons p t ih =>
    obtain ⟨a, b⟩ := p
    rw [List.lookup] at h
    by_cases hk : (k == a) = true
    · rw [hk] at h
      exact ⟨(a, b), List.mem_cons_self _ _, by simpa using h⟩
    · rw [Bool.not_eq_true] at hk
      rw [hk] at h
      obtain ⟨pr, hpr, hv⟩ := ih h
      exact ⟨pr, List.mem_cons_of_mem _ hpr, hv⟩

theorem WF_bias_ne_empty {st : AggState} (hwf : WFState st) {c v : String}
    (h : st.bias_by_crop.lookup c = some v) : v ≠ "" := by
  obtain ⟨pr, hpr, hv⟩ := lookup_val h
  rcases hwf.1 pr hpr with h1 | h1 | h1 <;> rw [← hv, h1] <;> decide

theorem recommendCore_mem_fields {st : AggState} {q : Query} {r : Recommendation}
    (h : r ∈ recommendCore st q) :
    r.benefits = r.reason ∧
    r.reason = getRecommendationReason st.legumes r.crop (normalizeName q.current_crop)
      (curBiasOf st q) (st.bias_by_crop.lookup r.crop) := by
  simp only [recommendCore] at h
  split at h
  · exact absurd h (List.not_mem_nil r)
  · split at h
    · rw [List.mem_map] at h
      obtain ⟨p, _, rfl⟩ := h
      exact ⟨rfl, rfl⟩
    · rw [List.mem_map] at h
      obtain ⟨p, _, rfl⟩ := h
      exact ⟨rfl, rfl⟩

/-! Claim-side definitions: the four score terms and the explanation string
exactly as the specification words them. -/

/-- Family penalty as the spec words it. -/
def famTerm (cand normCur : String) : ℚ := if cand = normCur then -1 else 0

/-- Rotation bonus as the spec words it: both biases known and different. -/
def rotTerm : Option String → Option String → ℚ
  | some a, some b => if a ≠ b then 1/2 else 0
  | _, _ => 0

/-- Legume bonus as the spec words it: low live nitrogen and a candidate in
the fixed set. -/
def legTerm (n : ℚ) (cand : String) : ℚ :=
  if n < 15 ∧ (cand = "Pulses" ∨ cand = "Oil Seeds") then 3/10 else 0

/-- Environmental term as the spec words it: closed bands, absent band
contributes zero to all three summands. -/
def envTerm : Option Bands → ℚ → ℚ → ℚ → ℚ
  | none, _, _, _ => 0
  | some b, temp, moisture, humidity =>
    (if b.temp_min ≤ temp ∧ temp ≤ b.temp_max then 3/10 else 0)
    + (if b.moist_min ≤ moisture ∧ moisture ≤ b.moist_max then 3/10 else 0)
    + (if b.hum_min ≤ humidity ∧ humidity ≤ b.hum_max then 1/5 else 0)

/-- Raw score of a candidate as the sum of the four spec terms. -/
def claimScore (st : AggState) (q : Query) (cand : String) : ℚ :=
  famTerm cand (normalizeName q.current_crop)
  + rotTerm (curBiasOf st q) (st.bias_by_crop.lookup cand)
  + legTerm q.n cand
  + envTerm (st.bands.lookup cand) q.temp q.moisture q.humidity

/-- Middle explanation clause as the spec words it: present exactly when
both biases are known and differ. -/
def biasClause : Option String → Option String → List String
  | some a, some b => if a ≠ b then ["Different nutrient requirements"] else []
  | _, _ => []

/-- Explanation string as the spec words it: the applicable clauses in the
fixed order joined by a semicolon separator, with the literal fallback. -/
def reasonSpec (cand normCur : String) (curBias candBias : Option String) : String :=
  let clauses : List String :=
    (if cand ≠ normCur then ["Crop rotation benefit"] else [])
    ++ biasClause curBias candBias
    ++ (if cand = "Pulses" ∨ cand = "Oil Seeds" then ["Nitrogen fixing properties"] else [])
  if clauses = [] then "Suitable for soil type" else String.intercalate "; " clauses

/-! Arithmetic facts about `pyRound` and the fold-based maximum and
minimum. -/

theorem pyRound_bounds {q : ℚ} (h0 : 0 ≤ q) (h1 : q ≤ 100) :
    0 ≤ pyRound q ∧ pyRound q ≤ 100 := by
  have hfl : 0 ≤ ⌊q⌋ := Int.floor_nonneg.2 h0
  have hfu : (⌊q⌋ : ℚ) ≤ 100 := le_trans (Int.floor_le q) h1
  have hfu2 : ⌊q⌋ ≤ 100 := by exact_mod_cast hfu
  have hstep : ¬(q - (⌊q⌋ : ℚ) < 1/2) → ⌊q⌋ + 1 ≤ 100 := by
    intro hge
    push_neg at hge
    have hq : (⌊q⌋ : ℚ) < 100 := by linarith
    have hz : ⌊q⌋ < 100 := by exact_mod_cast hq
    omega
  simp only [pyRound]
  split_ifs with ha hb hc
  · exact ⟨hfl, hfu2⟩
  · exact ⟨by omega, hstep ha⟩
  · exact ⟨hfl, hfu2⟩
  · exact ⟨by omega, hstep ha⟩

theorem pyRound_hundred : pyRound 100 = 100 := by
  have h : ⌊(100 : ℚ)⌋ = 100 := by
    rw [show ((100 : ℚ)) = ((100 : ℤ) : ℚ) by norm_num, Int.floor_intCast]
  simp only [pyRound, h]
  norm_num

theorem le_foldl_max (xs : List ℚ) (a : ℚ) : a ≤ xs.foldl max a := by
  induction xs generalizing a with
  | nil => exact le_refl a
  | cons z zs ih => exact le_trans (le_max_left a z) (ih (max a z))

theorem mem_le_foldl_max {xs : List ℚ} {y : ℚ} (h : y ∈ xs) (a : ℚ) :
    y ≤ xs.foldl max a := by
  induction xs generalizing a with
  | nil => cases h
  | cons z zs ih =>
    rcases List.mem_cons.mp h with rfl | hy
    · exact le_trans (le_max_right a y) (le_foldl_max zs (max a y))
    · exact ih hy (max a z)

theorem foldl_max_le {xs : List ℚ} {a b : ℚ} (hab : a ≤ b)
    (h : ∀ y ∈ xs, y ≤ b) : xs.foldl max a ≤ b := by
  induction xs generalizing a with
  | nil => exact hab
  | cons z zs ih =>
    exact ih (max_le hab (h z (List.mem_cons_self z zs)))
      (fun y hy => h y (List.mem_cons_of_mem z hy))

theorem le_listMax {l : List ℚ} {y : ℚ} (h : y ∈ l) : y ≤ listMax l := by
  rcases l with _ | ⟨x, xs⟩
  · cases h
  · rcases List.mem_cons.mp h with rfl | hy
    · exact le_foldl_max xs y
    · exact mem_le_foldl_max hy x

theorem listMax_cons_of_le {x : ℚ} {xs : List ℚ} (h : ∀ y ∈ xs, y ≤ x) :
    listMax (x :: xs) = x :=
  le_antisymm (foldl_max_le le_rfl h) (le_foldl_max xs x)

theorem foldl_min_le (xs : List ℚ) (a : ℚ) : xs.foldl min a ≤ a := by
  induction xs generalizing a with
  | nil => exact le_refl a
  | cons z zs ih => exact le_trans (ih (min a z)) (min_le_left a z)

theorem foldl_min_le_mem {xs : List ℚ} {y : ℚ} (h : y ∈ xs) (a : ℚ) :
    xs.foldl min a ≤ y := by
  induction xs generalizing a with
  | nil => cases h
  | cons z zs ih =>
    rcases List.mem_cons.mp h with rfl | hy
    · exact le_trans (foldl_min_le zs (min a y)) (min_le_right a y)
    · exact ih hy (min a z)

theorem listMin_le {l : List ℚ} {y : ℚ} (h : y ∈ l) : listMin l ≤ y := by
  rcases l with _ | ⟨x, xs⟩
  · cases h
  · rcases List.mem_cons.mp h with rfl | hy
    · exact foldl_min_le xs y
    · exact foldl_min_le_mem hy x

/-! Sortedness and shape of the selected list. -/

theorem sortByScoreDesc_sorted (l : List (String × ℚ)) :
    (sortByScoreDesc l).Pairwise scoreGE :=
  List.sorted_insertionSort scoreGE l

theorem selectedOf_sorted (st : AggState) (q : Query) :
    (selectedOf st q).Pairwise scoreGE := by
  unfold selectedOf pyTakeTo
  exact List.Pairwise.sublist (List.take_sublist _ _) (sortByScoreDesc_sorted _)

theorem recommendCore_pairs (st : AggState) (q : Query) :
    (recommendCore st q).map (fun r => (r.crop, r.score)) = selectedOf st q := by
  simp only [recommendCore]
  split
  · rename_i h
    rw [List.isEmpty_iff] at h
    rw [h]
    rfl
  · split
    · rw [List.map_map]
      exact List.enum_map_snd _
    · rw [List.map_map]
      exact List.map_id _

theorem enum_map_snd_comp {α β : Type} (l : List α) (g : α → β) :
    l.enum.map (fun p => g p.2) = l.map g := by
  rw [show (fun p : ℕ × α => g p.2) = g ∘ Prod.snd from rfl, ← List.map_map,
    List.enum_map_snd]

theorem recommendCore_ladder {st : AggState} {q : Query}
    (hne : ¬(selectedOf st q).isEmpty = true)
    (hrange : selMax st q - selMin st q < 1/100) :
    recommendCore st q = (selectedOf st q).enum.map (ladderRec st q) := by
  simp only [recommendCore]
  rw [if_neg hne, if_pos hrange]

theorem recommendCore_norm {st : AggState} {q : Query}
    (hne : ¬(selectedOf st q).isEmpty = true)
    (hrange : ¬selMax st q - selMin st q < 1/100) :
    recommendCore st q = (selectedOf st q).map (normRec st q) := by
  simp only [recommendCore]
  rw [if_neg hne, if_neg hrange]

/-- Suitability value as the claim words it, as a function of the selected
set's extremes, the candidate's 0-based rank and its raw score. -/
def suitSpec (minS maxS : ℚ) (idx : ℕ) (score : ℚ) : ℤ :=
  if maxS - minS < 1/100 then max (100 - (idx : ℤ) * 10) 50
  else max (pyRound ((score - minS) / (maxS - minS) * 100)) 50

/-- Conclusion of claim C2: the returned suitability scores are exactly the
claimed formula applied over the selected set, every returned suitability
lies in `[50, 100]`, and the top-ranked (highest raw score) candidate gets
`100`. -/
def C2Statement (st : AggState) (q : Query) : Prop :=
  ((recommendCore st q).map (fun r => r.suitability_score)
      = (selectedOf st q).enum.map
          (fun p => suitSpec (selMin st q) (selMax st q) p.1 p.2.2))
  ∧ (∀ r ∈ recommendCore st q, 50 ≤ r.suitability_score ∧ r.suitability_score ≤ 100)
  ∧ (recommendCore st q).head?.map (fun r => r.suitability_score) = some 100

/-- C2: for every query whose selected set is non-empty, the suitability
scores are computed over that selected set by the claimed two-branch
formula, always land in `[50, 100]`, and the highest-raw-score candidate
(the head of the ranked list) receives `100`. -/
theorem C2_suitability (st : AggState) (q : Query)
    (hne : selectedOf st q ≠ []) : C2Statement st q := by
  obtain ⟨r0, rs, hsel⟩ := List.exists_cons_of_ne_nil hne
  have hneb : ¬(selectedOf st q).isEmpty = true := by
    rw [List.isEmpty_iff]; exact hne
  have hsorted := selectedOf_sorted st q
  rw [hsel] at hsorted
  have hr0 : ∀ y ∈ rs, y.2 ≤ r0.2 := fun y hy =>
    (List.pairwise_cons.mp hsorted).1 y hy
  have hMax : selMax st q = r0.2 := by
    unfold selMax
    rw [hsel, List.map_cons]
    refine listMax_cons_of_le ?_
    intro y hy
    obtain ⟨p, hp, rfl⟩ := List.mem_map.mp hy
    exact hr0 p hp
  have hmem_bounds : ∀ p ∈ selectedOf st q,
      selMin st q ≤ p.2 ∧ p.2 ≤ selMax st q := by
    intro p hp
    have hp2 : p.2 ∈ (selectedOf st q).map Prod.snd := List.mem_map_of_mem _ hp
    exact ⟨listMin_le hp2, le_listMax hp2⟩
  unfold C2Statement
  by_cases hrange : selMax st q - selMin st q < 1/100
  · rw [recommendCore_ladder hneb hrange]
    refine ⟨?_, ?_, ?_⟩
    · rw [List.map_map]
      refine List.map_congr_left ?_
      intro p _
      simp only [ladderRec, suitSpec]
      rw [if_pos hrange]
      rfl
    · intro r hr
      obtain ⟨p, _, rfl⟩ := List.mem_map.mp hr
      exact ⟨le_max_right _ _, max_le (by omega) (by norm_num)⟩
    · rw [hsel]
      simp only [List.enum, List.enumFrom_cons, List.map_cons, List.head?_cons,
        Option.map_some]
      simp [ladderRec]
  · have hpos : 0 < selMax st q - selMin st q :=
      lt_of_lt_of_le (by norm_num) (not_lt.mp hrange)
    rw [recommendCore_norm hneb hrange]
    refine ⟨?_, ?_, ?_⟩
    · calc ((selectedOf st q).map (normRec st q)).map (fun r => r.suitability_score)
          = (selectedOf st q).map
              (fun x => (normRec st q x).suitability_score) := by
            rw [List.map_map]; rfl
        _ = (selectedOf st q).enum.map
              (fun p => (normRec st q p.2).suitability_score) :=
            (enum_map_snd_comp (selectedOf st q)
              (fun x => (normRec st q x).suitability_score)).symm
        _ = (selectedOf st q).enum.map
              (fun p => suitSpec (selMin st q) (selMax st q) p.1 p.2.2) := by
            refine List.map_congr_left ?_
            intro p _
            simp only [normRec, suitSpec]
            rw [if_neg hrange]
    · intro r hr
      obtain ⟨p, hp, rfl⟩ := List.mem_map.mp hr
      obtain ⟨hm, hM⟩ := hmem_bounds p hp
      have h0 : 0 ≤ (p.2 - selMin st q) / (selMax st q - selMin st q) * 100 :=
        mul_nonneg (div_nonneg (by linarith) (le_of_lt hpos)) (by norm_num)
      have h1 : (p.2 - selMin st q) / (selMax st q - selMin st q) ≤ 1 :=
        (div_le_one hpos).2 (by linarith)
      have h100 : (p.2 - selMin st q) / (selMax st q - selMin st q) * 100 ≤ 100 := by
        calc (p.2 - selMin st q) / (selMax st q - selMin st q) * 100
            ≤ 1 * 100 := mul_le_mul_of_nonneg_right h1 (by norm_num)
          _ = 100 := one_mul 100
      obtain ⟨hl, hh⟩ := pyRound_bounds h0 h100
      exact ⟨le_max_right _ _, max_le (by omega) (by norm_num)⟩
    · rw [hsel]
      simp only [List.map_cons, List.head?_cons, Option.map_some]
      have hnorm : (r0.2 - selMin st q) / (selMax st q - selMin st q) * 100 = 100 := by
        rw [← hMax, div_self (ne_of_gt hpos), one_mul]
      simp only [normRec, hnorm, pyRound_hundred]
      rfl

/-- C2 witness: the example query has a non-empty selected set, and the
claimed suitability formula, bounds and top value hold on it. -/
theorem C2_witness : C2Statement exSt exQ :=
  C2_suitability exSt exQ (by decide)

/-- Ranking order as the claim words it: score descending, with equal
scores broken by alphabetical crop name. -/
def lexLE (a b : String × ℚ) : Prop := b.2 < a.2 ∨ (a.2 = b.2 ∧ a.1 ≤ b.1)

instance : DecidableRel lexLE := fun a b => by
  unfold lexLE; exact inferInstance

instance : IsTotal (String × ℚ) lexLE := ⟨by
  intro a b
  rcases lt_trichotomy a.2 b.2 with h | h | h
  · exact Or.inr (Or.inl h)
  · rcases le_total a.1 b.1 with hn | hn
    · exact Or.inl (Or.inr ⟨h, hn⟩)
    · exact Or.inr (Or.inr ⟨h.symm, hn⟩)
  · exact Or.inl (Or.inl h)⟩

instance : IsTrans (String × ℚ) lexLE := ⟨by
  intro a b c hab hbc
  rcases hab with h1 | ⟨h1, h2⟩ <;> rcases hbc with h3 | ⟨h3, h4⟩
  · exact Or.inl (lt_trans h3 h1)
  · exact Or.inl (h3 ▸ h1)
  · exact Or.inl (by rw [h1]; exact h3)
  · exact Or.inr ⟨h1.trans h3, le_trans h2 h4⟩⟩

instance : IsAntisymm (String × ℚ) lexLE := ⟨by
  intro a b hab hba
  rcases hab with h1 | ⟨h1, h2⟩
  · rcases hba with h3 | ⟨h3, h4⟩
    · exact absurd h3 (lt_asymm h1)
    · rw [h3] at h1; exact absurd h1 (lt_irrefl _)
  · rcases hba with h3 | ⟨h3, h4⟩
    · rw [h1] at h3; exact absurd h3 (lt_irrefl _)
    · exact Prod.ext (le_antisymm h2 h4) h1⟩

/-- Sorting by the claim's order: score descending, ties alphabetical. -/
def specSortLex (l : List (String × ℚ)) : List (String × ℚ) :=
  List.insertionSort lexLE l

theorem orderedInsert_sorted_lex (x : String × ℚ) (l : List (String × ℚ))
    (hl : l.Pairwise lexLE) (hx : ∀ y ∈ l, x.1 < y.1) :
    (l.orderedInsert scoreGE x).Pairwise lexLE := by
  induction l with
  | nil => simp
  | cons y ys ih =>
    rw [List.orderedInsert]
    split
    · rename_i hxy
      refine List.pairwise_cons.mpr ⟨?_, hl⟩
      intro z hz
      have hz2 : z.2 ≤ x.2 := by
        rcases List.mem_cons.mp hz with rfl | hz2
        · exact hxy
        · rcases (List.pairwise_cons.mp hl).1 z hz2 with h | ⟨h, _⟩
          · exact le_trans (le_of_lt h) hxy
          · exact le_trans (le_of_eq h.symm) hxy
      rcases lt_or_eq_of_le hz2 with h | h
      · exact Or.inl h
      · exact Or.inr ⟨h.symm, le_of_lt (hx z hz)⟩
    · rename_i hxy
      refine List.pairwise_cons.mpr ⟨?_, ih (List.pairwise_cons.mp hl).2
        (fun z hz => hx z (List.mem_cons_of_mem _ hz))⟩
      intro z hz
      rcases (List.mem_orderedInsert scoreGE).mp hz with rfl | hz2
      · exact Or.inl (lt_of_not_le hxy)
      · exact (List.pairwise_cons.mp hl).1 z hz2

/-- The stable descending sort of a list whose names strictly increase is
sorted for the claim's lexicographic order: elements with equal scores keep
their original, alphabetical, relative order. -/
theorem sortByScoreDesc_sorted_lex {l : List (String × ℚ)}
    (h : l.Pairwise fun a b => a.1 < b.1) :
    (sortByScoreDesc l).Pairwise lexLE := by
  induction l with
  | nil => simp [sortByScoreDesc]
  | cons x xs ih =>
    have hnames : ∀ y ∈ sortByScoreDesc xs, x.1 < y.1 := by
      intro y hy
      have hy2 : y ∈ xs := (List.perm_insertionSort scoreGE xs).mem_iff.mp hy
      exact (List.pairwise_cons.mp h).1 y hy2
    exact orderedInsert_sorted_lex x _ (ih (List.pairwise_cons.mp h).2) hnames

theorem sortByScoreDesc_eq_specSortLex {l : List (String × ℚ)}
    (h : l.Pairwise fun a b => a.1 < b.1) :
    sortByScoreDesc l = specSortLex l :=
  List.eq_of_perm_of_sorted
    ((List.perm_insertionSort scoreGE l).trans (List.perm_insertionSort lexLE l).symm)
    (sortByScoreDesc_sorted_lex h)
    (List.sorted_insertionSort lexLE l)

/-- Conclusion of claim C3: the returned records are exactly the candidates
sorted by raw score descending with alphabetical tie order, truncated to
the first `top_k`; the length is `min top_k (candidate count)`; `top_k = 0`
yields the empty list; a `top_k` at or above the candidate count returns
every candidate. -/
def C3Statement (st : AggState) (q : Query) : Prop :=
  ((recommendCore st q).map (fun r => (r.crop, r.score))
      = pyTakeTo (specSortLex (scoredOf st q)) q.top_k)
  ∧ (recommendCore st q).length = min q.top_k.toNat (candidatesOf st q).length
  ∧ (q.top_k = 0 → recommendCore st q = [])
  ∧ ((candidatesOf st q).length ≤ q.top_k.toNat
      → (recommendCore st q).map (fun r => (r.crop, r.score))
          = specSortLex (scoredOf st q))

/-- C3: with a non-negative `top_k` and the alphabetically sorted
duplicate-free candidate sequence the aggregate builder produces, the
result is the score-descending, alphabetically tie-broken ranking of the
scored candidates truncated to `top_k`, so its length is
`min top_k (candidate count)`. -/
theorem C3_ranking (st : AggState) (q : Query) (htop : 0 ≤ q.top_k)
    (hcand : (candidatesOf st q).Pairwise (· < ·)) : C3Statement st q := by
  have hnames : (scoredOf st q).Pairwise fun a b => a.1 < b.1 := by
    unfold scoredOf
    exact List.pairwise_map.mpr hcand
  have hsort := sortByScoreDesc_eq_specSortLex hnames
  have hpairs := recommendCore_pairs st q
  have hlen : (recommendCore st q).length = (selectedOf st q).length := by
    rw [← hpairs, List.length_map]
  have hselLen : (selectedOf st q).length
      = min q.top_k.toNat (candidatesOf st q).length := by
    unfold selectedOf pyTakeTo sortByScoreDesc
    rw [if_pos htop, List.length_take, List.length_insertionSort, scoredOf,
      List.length_map]
  refine ⟨?_, ?_, ?_, ?_⟩
  · rw [hpairs]
    unfold selectedOf
    rw [hsort]
  · rw [hlen, hselLen]
  · intro h0
    have : (recommendCore st q).length = 0 := by
      rw [hlen, hselLen, h0]
      simp
    exact List.length_eq_zero.mp this
  · intro hge
    rw [hpairs]
    unfold selectedOf pyTakeTo
    rw [if_pos htop, hsort]
    refine List.take_of_length_le ?_
    rw [specSortLex, List.length_insertionSort, scoredOf, List.length_map]
    exact hge

theorem exCand_sorted : (candidatesOf exSt exQ).Pairwise (· < ·) := by
  show (["Paddy", "Pulses", "Rice"] : List String).Pairwise (· < ·)
  simp [List.pairwise_cons]
  decide

/-- C3 witness: the example query (`top_k = 5`, three sorted candidates)
returns all three candidates in ranked order. -/
theorem C3_witness : C3Statement exSt exQ :=
  C3_ranking exSt exQ (by decide) exCand_sorted

theorem rot_leg_split (rotb : ℚ) (c : Prop) [Decidable c] :
    (if c then rotb + 3/10 else rotb) = rotb + (if c then (3/10 : ℚ) else 0) := by
  split <;> simp

theorem legumes_mem_iff {st : AggState} (hwf : WFState st) (cand : String) :
    (cand ∈ st.legumes) ↔ (cand = "Pulses" ∨ cand = "Oil Seeds") := by
  rw [hwf.2]; unfold initLegumes; simp

theorem scoreCand_eq_claimScore (st : AggState) (q : Query) (hwf : WFState st)
    (cand : String) :
    scoreCand st (normalizeName q.current_crop) (curBiasOf st q) q cand
      = claimScore st q cand := by
  have hrot : (if truthy (curBiasOf st q) ∧ truthy (st.bias_by_crop.lookup cand) ∧
        st.bias_by_crop.lookup cand ≠ curBiasOf st q then (1/2 : ℚ) else 0)
      = rotTerm (curBiasOf st q) (st.bias_by_crop.lookup cand) := by
    rcases hcb : curBiasOf st q with _ | a
    · simp [truthy, rotTerm]
    · rcases hdb : st.bias_by_crop.lookup cand with _ | b
      · simp [truthy, rotTerm]
      · have ha : a ≠ "" := WF_bias_ne_empty hwf hcb
        have hb : b ≠ "" := WF_bias_ne_empty hwf hdb
        by_cases hab : a = b
        · subst hab; simp [truthy, rotTerm]
        · simp [truthy, rotTerm, ha, hb, hab, Ne.symm hab]
  have e1 : (if cand ≠ normalizeName q.current_crop then (0 : ℚ) else -1)
      = famTerm cand (normalizeName q.current_crop) := by
    unfold famTerm
    by_cases h : cand = normalizeName q.current_crop <;> simp [h]
  have e2 : (if q.n < 15 ∧ cand ∈ st.legumes then (3/10 : ℚ) else 0)
      = legTerm q.n cand := by
    unfold legTerm
    exact if_congr (and_congr_right fun _ => legumes_mem_iff hwf cand) rfl rfl
  have e3 : (match st.bands.lookup cand with
      | none => (0 : ℚ)
      | some b =>
        (if b.temp_min ≤ q.temp ∧ q.temp ≤ b.temp_max then 3/10 else 0)
        + (if b.moist_min ≤ q.moisture ∧ q.moisture ≤ b.moist_max then 3/10 else 0)
        + (if b.hum_min ≤ q.humidity ∧ q.humidity ≤ b.hum_max then 1/5 else 0))
      = envTerm (st.bands.lookup cand) q.temp q.moisture q.humidity := by
    rcases st.bands.lookup cand with _ | b <;> rfl
  simp only [scoreCand, claimScore]
  rw [rot_leg_split, hrot, e1, e2, e3]
  ring

/-- C1: the raw score computed for each candidate crop is the sum of the
four terms exactly as the claim states them: family penalty, rotation
bonus for known differing biases, additive legume bonus, and the
environmental band terms (given the aggregates `load_data` produces:
three-label bias values and the fixed legume set). -/
theorem C1_raw_score (st : AggState) (q : Query) (hwf : WFState st)
    (p : String × ℚ) (hp : p ∈ scoredOf st q) : p.2 = claimScore st q p.1 := by
  unfold scoredOf at hp
  rw [List.mem_map] at hp
  obtain ⟨c, _, rfl⟩ := hp
  exact scoreCand_eq_claimScore st q hwf c

/-- C1 witness: on the example state and query, the candidate `Pulses`
scores `8/5 = 0 + 0.5 + 0.3 + 0.8`, matching the claim's four-term sum. -/
theorem C1_witness :
    ("Pulses", (8 : ℚ)/5) ∈ scoredOf exSt exQ
    ∧ (8 : ℚ)/5 = claimScore exSt exQ "Pulses" :=
  ⟨by decide, C1_raw_score exSt exQ (by decide) ("Pulses", 8/5) (by decide)⟩

theorem getReason_eq_reasonSpec (st : AggState) (hwf : WFState st)
    (cand normCur : String) (cb : Option String)
    (hcb : ∀ a, cb = some a → a ≠ "") :
    getRecommendationReason st.legumes cand normCur cb (st.bias_by_crop.lookup cand)
      = reasonSpec cand normCur cb (st.bias_by_crop.lookup cand) := by
  have hL3 : (if cand ∈ st.legumes then ["Nitrogen fixing properties"] else [])
      = (if cand = "Pulses" ∨ cand = "Oil Seeds" then ["Nitrogen fixing properties"]
         else []) :=
    if_congr (legumes_mem_iff hwf cand) rfl rfl
  have hL2 : (if truthy cb ∧ truthy (st.bias_by_crop.lookup cand) ∧
        cb ≠ st.bias_by_crop.lookup cand then ["Different nutrient requirements"] else [])
      = biasClause cb (st.bias_by_crop.lookup cand) := by
    rcases hc : cb with _ | a
    · simp [truthy, biasClause]
    · rcases hd : st.bias_by_crop.lookup cand with _ | b
      · simp [truthy, biasClause]
      · have ha : a ≠ "" := hcb a hc
        have hb : b ≠ "" := WF_bias_ne_empty hwf hd
        by_cases hab : a = b
        · subst hab; simp [truthy, biasClause]
        · simp [truthy, biasClause, ha, hb, hab]
  simp only [getRecommendationReason, reasonSpec]
  rw [hL2, hL3]
  simp [List.isEmpty_iff]

/-- C7: every returned record's explanation is the clauses the claim lists,
in the fixed order with the semicolon separator, with the `Suitable for
soil type` fallback; the clause conditions are exactly those stated
(difference from the normalized current crop, both biases known and
different, membership in the fixed legume set). -/
theorem C7_reason (st : AggState) (q : Query) (hwf : WFState st)
    (r : Recommendation) (h : r ∈ recommendCore st q) :
    r.reason = reasonSpec r.crop (normalizeName q.current_crop) (curBiasOf st q)
      (st.bias_by_crop.lookup r.crop) := by
  rw [(recommendCore_mem_fields h).2]
  exact getReason_eq_reasonSpec st hwf r.crop (normalizeName q.current_crop)
    (curBiasOf st q) (fun a ha => WF_bias_ne_empty hwf ha)

/-- C7 witness: the top record of the example query carries the three-clause
explanation predicted by the claim. -/
theorem C7_witness :
    exRec ∈ recommendCore exSt exQ
    ∧ exRec.reason = reasonSpec exRec.crop (normalizeName exQ.current_crop)
        (curBiasOf exSt exQ) (exSt.bias_by_crop.lookup exRec.crop) :=
  ⟨by decide, C7_reason exSt exQ (by decide) exRec (by decide)⟩

/-- C4 counterexample: on the three-way tie row `N = P = K = 7` the per-row
label computed by `load_data` is `N_high`, not the `K_high` the claim
states, because the first branch `N >= P and N >= K` already fires. -/
theorem C4_counterexample :
    nutrientBias 7 7 7 = "N_high" ∧ nutrientBias 7 7 7 ≠ "K_high" := by
  constructor <;> decide

/-- C4 (amended): for every observation row in which nitrogen, phosphorous
and potassium are all equal, the per-row nutrient-bias label assigned
during aggregate construction is `N_high` (the first branch of the
tie-break chain fires on a three-way tie; `K_high` only wins ties that
reach the final branch). -/
theorem C4_threeway_tie (x : ℚ) : nutrientBias x x x = "N_high" := by
  simp [nutrientBias]

/-- C5: when the normalized soil type is not a key of the soil-to-candidates
index, `recommend_next_crop` on a loaded recommender returns the empty list
without raising. -/
theorem C5_unknown_soil (st : AggState) (q : Query) (hload : st.dataLoaded = true)
    (hunk : st.suit_by_soil.lookup (normalizeName q.soil_type) = none) :
    recommend_next_crop st q = Except.ok [] := by
  unfold recommend_next_crop recommend_next_cropS
  rw [hload]
  simp [recommendCore, selectedOf, scoredOf, candidatesOf, sortByScoreDesc, pyTakeTo, hunk]

/-- C5 witness: the example state with a query for the unknown soil type
`Sandy` yields `Except.ok []`. -/
theorem C5_witness : recommend_next_crop exSt exQUnknown = Except.ok [] :=
  C5_unknown_soil exSt exQUnknown (by decide) (by decide)

/-- C6: `recommend_next_crop` raises exactly when the aggregates have not
been built (`soil_data is None`); whenever the data is loaded it returns
`Except.ok`, never an error, for every query including unknown soil types
and crops. -/
theorem C6_uninitialized_error (st : AggState) (q : Query) :
    ((∃ e, recommend_next_crop st q = Except.error e) ↔ st.dataLoaded = false)
    ∧ ((∃ l, recommend_next_crop st q = Except.ok l) ↔ st.dataLoaded = true) := by
  unfold recommend_next_crop recommend_next_cropS
  cases h : st.dataLoaded <;> simp

/-- C8: the scorer is deterministic: two invocations on equal aggregate
states and equal queries produce identical results; the computation reads
nothing beyond its arguments. -/
theorem C8_deterministic (st st2 : AggState) (q q2 : Query)
    (hst : st = st2) (hq : q = q2) :
    recommend_next_crop st q = recommend_next_crop st2 q2 := by
  rw [hst, hq]

/-- C8 witness: two invocations on the example state and query agree. -/
theorem C8_witness : recommend_next_crop exSt exQ = recommend_next_crop exSt exQ :=
  C8_deterministic exSt exSt exQ exQ rfl rfl

/-- C9: a call of `recommend_next_crop` leaves all four aggregate
structures of the recommender state unchanged. -/
theorem C9_frame (st : AggState) (q : Query) :
    (recommend_next_cropS st q).2.suit_by_soil = st.suit_by_soil
    ∧ (recommend_next_cropS st q).2.bias_by_crop = st.bias_by_crop
    ∧ (recommend_next_cropS st q).2.bands = st.bands
    ∧ (recommend_next_cropS st q).2.legumes = st.legumes := by
  cases h : st.dataLoaded <;> simp [recommend_next_cropS, h]

/-- C10: every returned record carries both a `reason` and a `benefits`
field and the two always hold the identical explanation string (the record
type `Recommendation` has both fields by construction, mirroring the dict
literal in the source). -/
theorem C10_benefits_duplicates_reason (st : AggState) (q : Query)
    (r : Recommendation) (h : r ∈ recommendCore st q) : r.benefits = r.reason :=
  (recommendCore_mem_fields h).1

/-- C10 witness: the top record of the example query satisfies the
equality. -/
theorem C10_witness :
    exRec ∈ recommendCore exSt exQ ∧ exRec.benefits = exRec.reason :=
  ⟨by decide, C10_benefits_duplicates_reason exSt exQ exRec (by decide)⟩

end CropRotation
